import Mathlib

/-!
Shallow embedding of `src/memory_mcp.py`, a small in-memory key-value memory
store with JSON-snapshot persistence and an append-only audit log.

Modelling conventions:
* Wall-clock timestamps are naturals.  The Python code renders them as ISO-8601
  strings whose lexicographic order agrees with chronological order for a
  monotone clock, so `Nat` with `≤` is a faithful abstraction.
* `datetime.now()` values consumed by an operation are explicit arguments
  (`keyTime` for the second-granularity key clock, `now` for entry and log
  timestamps).
* Whether `save_memory_to_file` succeeds is the explicit Boolean `saveOk`
  (the Python function swallows I/O exceptions and returns a Boolean).
* The random `operation_id` (a UUID) carries no information used by any
  operation and is omitted from the audit-record embedding.
* The Python `dict` is an insertion-ordered association list.
-/

/-- Decimal digit as a character, as Python renders digits. -/
def digitChar : Nat → Char
  | 0 => '0'
  | 1 => '1'
  | 2 => '2'
  | 3 => '3'
  | 4 => '4'
  | 5 => '5'
  | 6 => '6'
  | 7 => '7'
  | 8 => '8'
  | _ => '9'

/-- Decimal rendering of a natural number (Python `str(n)`), most significant
digit first. -/
def natRepr (n : Nat) : String :=
  if n = 0 then "0" else String.mk ((Nat.digits 10 n).reverse.map digitChar)

/-- Python `f"{c:02d}"`: decimal rendering padded with a leading zero to at
least two digits. -/
def twoDigit (c : Nat) : String :=
  if c < 10 then "0" ++ natRepr c else natRepr c

/-- The candidate key tried by the collision loop of `create_memory` for
counter value `c`: `f"{original_key}_{c:02d}"`. -/
def suffixKey (base : String) (c : Nat) : String :=
  base ++ "_" ++ twoDigit c

/-- `generate_auto_key`: `f"memory_{now.strftime('%Y%m%d%H%M%S')}"`.  The
second-granularity clock reading is modelled as the natural `t`, rendered in
decimal. -/
def generate_auto_key (t : Nat) : String :=
  "memory_" ++ natRepr t

/-- Maximum length of a string in a list (used to bound the key inventory). -/
def maxLen : List String → Nat
  | [] => 0
  | s :: rest => max s.length (maxLen rest)

theorem length_le_maxLen : ∀ {ks : List String} {k : String}, k ∈ ks →
    k.length ≤ maxLen ks := by
  intro ks
  induction ks with
  | nil => intro k h; cases h
  | cons s rest ih =>
      intro k h
      rcases List.mem_cons.mp h with h1 | h1
      · subst h1; simp [maxLen]
      · exact le_trans (ih h1) (le_max_right _ _)

theorem natRepr_length {n : Nat} (h : n ≠ 0) :
    (natRepr n).length = Nat.log 10 n + 1 := by
  have hd : (Nat.digits 10 n).length = Nat.log 10 n + 1 :=
    Nat.digits_len 10 n (by norm_num) h
  simp [natRepr, h, String.length, hd]

theorem suffixKey_big_length (base : String) (L : Nat) :
    L < (suffixKey base (10 ^ (L + 1))).length := by
  have hne : (10 : Nat) ^ (L + 1) ≠ 0 := by positivity
  have hge : 10 ≤ 10 ^ (L + 1) := by
    calc (10 : Nat) = 10 ^ 1 := (pow_one 10).symm
    _ ≤ 10 ^ (L + 1) := Nat.pow_le_pow_right (by norm_num) (by omega)
  have hlog : Nat.log 10 (10 ^ (L + 1)) = L + 1 := Nat.log_pow (by norm_num) _
  have h2 : (twoDigit (10 ^ (L + 1))).length = L + 2 := by
    have : ¬ (10 : Nat) ^ (L + 1) < 10 := by omega
    simp [twoDigit, this, natRepr_length hne, hlog]
  simp [suffixKey, String.length_append, h2]
  omega

/-- The collision loop of `create_memory` always finds an unused suffixed key:
some counter yields a key longer than everything in the inventory. -/
theorem exists_free_suffix (ks : List String) (base : String) :
    ∃ n, suffixKey base (n + 1) ∉ ks := by
  refine ⟨10 ^ (maxLen ks + 1) - 1, fun hmem => ?_⟩
  have h1 : 1 ≤ (10 : Nat) ^ (maxLen ks + 1) := Nat.one_le_pow _ _ (by norm_num)
  rw [Nat.sub_add_cancel h1] at hmem
  have hle := length_le_maxLen hmem
  have hbig := suffixKey_big_length base (maxLen ks)
  omega

/-- The counter value with which the collision loop of `create_memory`
terminates: the least positive `c` with `suffixKey base c` unused. -/
def firstFreeCounter (ks : List String) (base : String) : Nat :=
  Nat.find (exists_free_suffix ks base) + 1

/-- The key assigned by the `while key in memory_store` loop of
`create_memory`: the generated base key when it is unused, otherwise the base
key with the first free two-digit suffix counter. -/
def assignKey (ks : List String) (base : String) : String :=
  if base ∈ ks then suffixKey base (firstFreeCounter ks base) else base

theorem assignKey_not_mem (ks : List String) (base : String) :
    assignKey ks base ∉ ks := by
  unfold assignKey
  split
  · exact Nat.find_spec (exists_free_suffix ks base)
  · assumption

theorem assignKey_min (ks : List String) (base : String) :
    ∀ c, 1 ≤ c → c < firstFreeCounter ks base → suffixKey base c ∈ ks := by
  intro c hc1 hc2
  obtain ⟨n, rfl⟩ : ∃ n, c = n + 1 := ⟨c - 1, by omega⟩
  have hn : n < Nat.find (exists_free_suffix ks base) := by
    unfold firstFreeCounter at hc2; omega
  have := Nat.find_min (exists_free_suffix ks base) hn
  simpa using this

theorem assignKey_suffixed (ks : List String) (base : String) (hb : base ∈ ks) :
    assignKey ks base = suffixKey base (firstFreeCounter ks base)
      ∧ 1 ≤ firstFreeCounter ks base := by
  constructor
  · simp [assignKey, hb]
  · unfold firstFreeCounter; omega

/-- A stored note (the dict built by `create_memory_entry` /
`update_memory`). -/
structure Entry where
  content : String
  created_at : Nat
  updated_at : Nat
deriving DecidableEq

/-- A value stored under a metadata key of an audit record. -/
inductive MetaValue
  | nat (n : Nat)
  | bool (b : Bool)
  | str (s : String)
deriving DecidableEq

/-- One line of `memory_operations.log`, as assembled by `log_operation`.
The random `operation_id` is omitted (see the module docstring). -/
structure AuditRecord where
  timestamp : Nat
  operation : String
  key : Option String
  before : Option Entry
  after : Option Entry
  success : Bool
  error : Option String
  metadata : List (String × MetaValue)
deriving DecidableEq

/-- `log_operation`: append one record to the log file; the surrounding
`try/except` swallows a failed file append, which then writes nothing and only
prints a warning.  In the embedding the log file is the list of records
written so far and `logOk` says whether the append succeeded. -/
def log_operation (log : List AuditRecord) (logOk : Bool) (now : Nat)
    (operation : String) (key : Option String) (before after : Option Entry)
    (success : Bool) (error : Option String)
    (metadata : List (String × MetaValue)) : List AuditRecord :=
  if logOk then
    log ++ [⟨now, operation, key, before, after, success, error, metadata⟩]
  else
    log

/-- Python `memory_store[key]` lookup / `key in memory_store` membership on
the insertion-ordered dict. -/
def getEntry : List (String × Entry) → String → Option Entry
  | [], _ => none
  | (k, e) :: rest, key => if key = k then some e else getEntry rest key

/-- Python `memory_store[key] = entry`: replace in place when the key exists
(dicts keep the original position), otherwise append. -/
def setEntry : List (String × Entry) → String → Entry → List (String × Entry)
  | [], key, e => [(key, e)]
  | (k, e0) :: rest, key, e =>
      if key = k then (key, e) :: rest else (k, e0) :: setEntry rest key e

/-- Python `del memory_store[key]`. -/
def delKey : List (String × Entry) → String → List (String × Entry)
  | [], _ => []
  | (k, e) :: rest, key => if key = k then rest else (k, e) :: delKey rest key

/-- Python `list(memory_store.keys())` (insertion order). -/
def keys (m : List (String × Entry)) : List String :=
  m.map Prod.fst

/-- Python `", ".join(ks)`. -/
def joinKeys : List String → String
  | [] => ""
  | [k] => k
  | k :: k2 :: rest => k ++ ", " ++ joinKeys (k2 :: rest)

/-- The sort key `lambda k: memory_store[k]['created_at']` of `list_memory`
(all sorted keys are present in the store, so the default is never hit). -/
def createdOf (m : List (String × Entry)) (k : String) : Nat :=
  match getEntry m k with
  | some e => e.created_at
  | none => 0

/-- `sorted(keys, key=lambda k: memory_store[k]['created_at'], reverse=True)`.
Python `sorted` is a stable sort; with `reverse=True` it orders by descending
sort key while equal keys keep their original relative order, which is exactly
a stable merge sort with the comparison below. -/
def sortedKeys (m : List (String × Entry)) : List String :=
  (keys m).mergeSort (fun a b => createdOf m b ≤ createdOf m a)

/-- The whole mutable state of the process: the dict `memory_store` and the
audit-log file contents. -/
structure St where
  memory_store : List (String × Entry)
  log : List AuditRecord
deriving DecidableEq

/-- `create_memory_entry`: a fresh entry with
`created_at = updated_at = now`. -/
def create_memory_entry (content : String) (now : Nat) : Entry :=
  ⟨content, now, now⟩

/-- The entry detail string returned by `read_memory` on a hit. -/
def entryDetail (key : String) (e : Entry) : String :=
  "Key: \x27" ++ key ++ "\x27\n" ++ e.content ++ "\n--- Metadata ---\nCreated: "
    ++ natRepr e.created_at ++ "\nUpdated: " ++ natRepr e.updated_at
    ++ "\nChars: " ++ natRepr e.content.length

/-- One numbered item of the `list_memory` output.  The Python code slices the
ISO timestamp into a date and a time-of-day part; with `Nat` timestamps the
whole creation timestamp is rendered instead. -/
def listItem (m : List (String × Entry)) (i : Nat) (k : String) : String :=
  match getEntry m k with
  | some e =>
      natRepr i ++ ". [" ++ k ++ "]\n   " ++ e.content ++ "\n   "
        ++ natRepr e.created_at ++ " (" ++ natRepr e.content.length
        ++ " chars)\n\n"
  | none => ""

/-- The body of the `for i, key in enumerate(sorted_keys, 1)` loop. -/
def listBody (m : List (String × Entry)) (i : Nat) : List String → String
  | [] => ""
  | k :: rest => listItem m i k ++ listBody m (i + 1) rest

/-- `list_memory`.  `logOk` says whether the audit-log append succeeded. -/
def list_memory (st : St) (now : Nat) (logOk : Bool) : St × String :=
  let log' := log_operation st.log logOk now "list" none none none true none
    [("entry_count", .nat st.memory_store.length)]
  if st.memory_store.isEmpty then
    (⟨st.memory_store, log'⟩, "No user info saved yet.")
  else
    (⟨st.memory_store, log'⟩,
      ("🧠 " ++ natRepr st.memory_store.length ++ " memory entries:\n\n"
        ++ listBody st.memory_store 1 (sortedKeys st.memory_store)).trimRight)

/-- `create_memory content`: assign a fresh key, insert the new entry, log,
then attempt to persist (`saveOk` says whether the snapshot write succeeded,
`logOk` whether the audit-log append succeeded).  `keyTime` is the clock
reading used by `generate_auto_key`, `now` the one used for the entry and the
log record. -/
def create_memory (st : St) (content : String) (keyTime now : Nat)
    (saveOk logOk : Bool) : St × String :=
  let key := assignKey (keys st.memory_store) (generate_auto_key keyTime)
  let new_entry := create_memory_entry content now
  let store' := setEntry st.memory_store key new_entry
  let log' := log_operation st.log logOk now "create" (some key) none
    (some new_entry) true none
    [("content_length", .nat content.length), ("auto_generated_key", .str key)]
  if saveOk then
    (⟨store', log'⟩, "Saved: \x27" ++ key ++ "\x27")
  else
    (⟨store', log'⟩, "Saved in memory, file write failed.")

/-- `read_memory key`: pure lookup; a miss logs a failure record and reports
the available keys. -/
def read_memory (st : St) (key : String) (now : Nat) (logOk : Bool) :
    St × String :=
  match getEntry st.memory_store key with
  | some entry =>
      (⟨st.memory_store,
        log_operation st.log logOk now "read" (some key) none none true none
          [("content_length", .nat entry.content.length)]⟩,
       entryDetail key entry)
  | none =>
      let log' := log_operation st.log logOk now "read" (some key) none none
        false (some "Key not found") []
      if (keys st.memory_store).isEmpty then
        (⟨st.memory_store, log'⟩,
          "Key \x27" ++ key ++ "\x27 not found. No memory data.")
      else
        (⟨st.memory_store, log'⟩,
          "Key \x27" ++ key ++ "\x27 not found. Available: "
            ++ joinKeys (keys st.memory_store))

/-- `update_memory key content`: requires the key to exist; preserves
`created_at`, replaces the content, stamps `updated_at = now`, logs the
before/after pair, then attempts to persist. -/
def update_memory (st : St) (key content : String) (now : Nat)
    (saveOk logOk : Bool) : St × String :=
  match getEntry st.memory_store key with
  | none =>
      let log' := log_operation st.log logOk now "update" (some key) none none
        false (some "Key not found") []
      if (keys st.memory_store).isEmpty then
        (⟨st.memory_store, log'⟩,
          "Key \x27" ++ key ++ "\x27 not found. No memory data exists.")
      else
        (⟨st.memory_store, log'⟩,
          "Key \x27" ++ key ++ "\x27 not found. Available: "
            ++ joinKeys (keys st.memory_store))
  | some existing_entry =>
      let updated_entry : Entry := ⟨content, existing_entry.created_at, now⟩
      let store' := setEntry st.memory_store key updated_entry
      let log' := log_operation st.log logOk now "update" (some key)
        (some existing_entry) (some updated_entry) true none
        [("old_content_length", .nat existing_entry.content.length),
         ("new_content_length", .nat content.length),
         ("content_changed", .bool (existing_entry.content != content))]
      if saveOk then
        (⟨store', log'⟩, "Updated: \x27" ++ key ++ "\x27")
      else
        (⟨store', log'⟩, "Updated in memory, file write failed.")

/-- `delete_memory key`: requires the key to exist; removes the entry, logs
the deleted entry as `before`, then attempts to persist. -/
def delete_memory (st : St) (key : String) (now : Nat) (saveOk logOk : Bool) :
    St × String :=
  match getEntry st.memory_store key with
  | some deleted_entry =>
      let store' := delKey st.memory_store key
      let log' := log_operation st.log logOk now "delete" (some key)
        (some deleted_entry) none true none
        [("deleted_content_length", .nat deleted_entry.content.length)]
      if saveOk then
        (⟨store', log'⟩, "Deleted \x27" ++ key ++ "\x27")
      else
        (⟨store', log'⟩, "Deleted \x27" ++ key ++ "\x27, file write failed.")
  | none =>
      let log' := log_operation st.log logOk now "delete" (some key) none none
        false (some "Key not found") []
      if (keys st.memory_store).isEmpty then
        (⟨st.memory_store, log'⟩,
          "Key \x27" ++ key ++ "\x27 not found. No memory data.")
      else
        (⟨st.memory_store, log'⟩,
          "Key \x27" ++ key ++ "\x27 not found. Available: "
            ++ joinKeys (keys st.memory_store))

/-- One attempted operation together with its clock readings and the outcomes
of its snapshot write and audit-log append. -/
inductive Op
  | list (now : Nat) (logOk : Bool)
  | create (content : String) (keyTime now : Nat) (saveOk logOk : Bool)
  | read (key : String) (now : Nat) (logOk : Bool)
  | update (key content : String) (now : Nat) (saveOk logOk : Bool)
  | delete (key : String) (now : Nat) (saveOk logOk : Bool)

/-- Dispatch one operation. -/
def step (st : St) : Op → St × String
  | .list now lk => list_memory st now lk
  | .create c kt now ok lk => create_memory st c kt now ok lk
  | .read k now lk => read_memory st k now lk
  | .update k c now ok lk => update_memory st k c now ok lk
  | .delete k now ok lk => delete_memory st k now ok lk

/-- Whether an attempted operation's audit-log append succeeded. -/
def opLogOk : Op → Bool
  | .list _ lk => lk
  | .create _ _ _ _ lk => lk
  | .read _ _ lk => lk
  | .update _ _ _ _ lk => lk
  | .delete _ _ _ lk => lk

/-- Run a sequence of operation attempts. -/
def runOps (st : St) : List Op → St
  | [] => st
  | op :: rest => runOps (step st op).1 rest

theorem getEntry_eq_none_iff : ∀ (m : List (String × Entry)) (k : String),
    getEntry m k = none ↔ k ∉ keys m := by
  intro m
  induction m with
  | nil => intro k; simp [getEntry, keys]
  | cons p rest ih =>
      intro k
      obtain ⟨k0, e0⟩ := p
      by_cases hk : k = k0 <;> simp [getEntry, keys, hk, ih k]

theorem getEntry_mem : ∀ {m : List (String × Entry)} {k : String} {e : Entry},
    getEntry m k = some e → (k, e) ∈ m := by
  intro m
  induction m with
  | nil => intro k e h; simp [getEntry] at h
  | cons p rest ih =>
      intro k e h
      obtain ⟨k0, e0⟩ := p
      by_cases hk : k = k0
      · subst hk
        simp [getEntry] at h
        simp [h]
      · simp [getEntry, hk] at h
        exact List.mem_cons_of_mem _ (ih h)

theorem getEntry_setEntry_self : ∀ (m : List (String × Entry)) (k : String)
    (e : Entry), getEntry (setEntry m k e) k = some e := by
  intro m
  induction m with
  | nil => intro k e; simp [setEntry, getEntry]
  | cons p rest ih =>
      intro k e
      obtain ⟨k0, e0⟩ := p
      by_cases hk : k = k0 <;> simp [setEntry, getEntry, hk, ih]

theorem getEntry_setEntry_ne : ∀ (m : List (String × Entry)) (k k' : String)
    (e : Entry), k' ≠ k → getEntry (setEntry m k e) k' = getEntry m k' := by
  intro m
  induction m with
  | nil =>
      intro k k' e h
      simp [setEntry, getEntry, h]
  | cons p rest ih =>
      intro k k' e h
      obtain ⟨k0, e0⟩ := p
      by_cases hk : k = k0
      · subst hk
        simp [setEntry, getEntry, h]
      · by_cases hk' : k' = k0 <;> simp [setEntry, getEntry, hk, hk', ih _ _ _ h]

theorem keys_cons (k0 : String) (e0 : Entry) (rest : List (String × Entry)) :
    keys ((k0, e0) :: rest) = k0 :: keys rest := rfl

theorem setEntry_not_mem : ∀ {m : List (String × Entry)} {k : String}
    (e : Entry), k ∉ keys m → setEntry m k e = m ++ [(k, e)] := by
  intro m
  induction m with
  | nil => intro k e _; simp [setEntry]
  | cons p rest ih =>
      intro k e h
      obtain ⟨k0, e0⟩ := p
      rw [keys_cons, List.mem_cons] at h
      push_neg at h
      simp [setEntry, h.1, ih e h.2]

theorem keys_setEntry_mem : ∀ (m : List (String × Entry)) (k : String)
    (e : Entry), k ∈ keys m → keys (setEntry m k e) = keys m := by
  intro m
  induction m with
  | nil => intro k e h; simp [keys] at h
  | cons p rest ih =>
      intro k e h
      obtain ⟨k0, e0⟩ := p
      by_cases hk : k = k0
      · simp [setEntry, hk, keys_cons]
      · rw [keys_cons, List.mem_cons] at h
        rcases h with h | h
        · exact absurd h hk
        · simp [setEntry, hk, keys_cons, ih _ e h]

theorem mem_setEntry : ∀ {m : List (String × Entry)} {k : String} {e : Entry}
    {p : String × Entry}, p ∈ setEntry m k e → p = (k, e) ∨ p ∈ m := by
  intro m
  induction m with
  | nil => intro k e p h; simp [setEntry] at h; simp [h]
  | cons q rest ih =>
      intro k e p h
      obtain ⟨k0, e0⟩ := q
      by_cases hk : k = k0
      · simp [setEntry, hk] at h
        rcases h with h | h
        · left; simp [h, hk]
        · right; simp [h]
      · simp [setEntry, hk] at h
        rcases h with h | h
        · right; simp [h]
        · rcases ih h with h1 | h1
          · left; exact h1
          · right; simp [h1]

theorem delKey_sublist : ∀ (m : List (String × Entry)) (k : String),
    (delKey m k).Sublist m := by
  intro m
  induction m with
  | nil => intro k; simp [delKey]
  | cons p rest ih =>
      intro k
      obtain ⟨k0, e0⟩ := p
      by_cases hk : k = k0
      · simp only [delKey, if_pos hk]
        exact List.sublist_cons_self (k0, e0) rest
      · simpa [delKey, hk] using (ih k).cons₂ (k0, e0)

theorem getEntry_delKey_ne : ∀ (m : List (String × Entry)) (k k' : String),
    k' ≠ k → getEntry (delKey m k) k' = getEntry m k' := by
  intro m
  induction m with
  | nil => intro k k' _; simp [delKey]
  | cons p rest ih =>
      intro k k' h
      obtain ⟨k0, e0⟩ := p
      by_cases hk : k = k0
      · subst hk
        simp [delKey, getEntry, h]
      · by_cases hk' : k' = k0 <;> simp [delKey, getEntry, hk, hk', ih _ _ h]

theorem not_mem_keys_delKey : ∀ (m : List (String × Entry)) (k : String),
    (keys m).Nodup → k ∉ keys (delKey m k) := by
  intro m
  induction m with
  | nil => intro k _; simp [delKey, keys]
  | cons p rest ih =>
      intro k hnd
      obtain ⟨k0, e0⟩ := p
      rw [keys_cons] at hnd
      rcases List.nodup_cons.mp hnd with ⟨h0, hrest⟩
      by_cases hk : k = k0
      · subst hk
        simpa [delKey] using h0
      · simp [delKey, hk, keys_cons]
        exact ih k hrest

theorem getEntry_delKey_self (m : List (String × Entry)) (k : String)
    (hnd : (keys m).Nodup) : getEntry (delKey m k) k = none :=
  (getEntry_eq_none_iff _ _).mpr (not_mem_keys_delKey m k hnd)

theorem mem_of_getEntry_isSome {m : List (String × Entry)} {k : String}
    {e : Entry} (h : getEntry m k = some e) : k ∈ keys m := by
  by_contra hmem
  rw [(getEntry_eq_none_iff m k).mpr hmem] at h
  cases h

/-- Every branch of every operation calls `log_operation` exactly once, so an
attempt appends exactly one audit record when its log append succeeds and
none when it fails. -/
theorem step_log_length (st : St) (op : Op) :
    (step st op).1.log.length
      = st.log.length + (if opLogOk op then 1 else 0) := by
  cases op with
  | list now lk =>
      cases lk <;>
        (simp only [step, list_memory, log_operation, opLogOk]
         split <;> simp)
  | create c kt now ok lk =>
      cases lk <;>
        (simp only [step, create_memory, log_operation, opLogOk]
         split <;> simp)
  | read k now lk =>
      cases lk <;>
        (simp only [step, read_memory, log_operation, opLogOk]
         split <;> (try split) <;> simp)
  | update k c now ok lk =>
      cases lk <;>
        (simp only [step, update_memory, log_operation, opLogOk]
         split <;> (try split) <;> simp)
  | delete k now ok lk =>
      cases lk <;>
        (simp only [step, delete_memory, log_operation, opLogOk]
         split <;> (try split) <;> simp)

/-- `s` occurs contiguously inside `t`. -/
def occursIn (s t : String) : Prop :=
  ∃ l r, t.data = l ++ s.data ++ r

/-- `t` starts with `s`. -/
def beginsWith (s t : String) : Prop :=
  ∃ r, t.data = s.data ++ r

/-- Every entry of the store has `created_at ≤ updated_at`. -/
def StoreInv (m : List (String × Entry)) : Prop :=
  ∀ p ∈ m, (p : String × Entry).2.created_at ≤ p.2.updated_at

/-- Every entry of the store was last touched no later than `now`. -/
def TimeLE (m : List (String × Entry)) (now : Nat) : Prop :=
  ∀ p ∈ m, (p : String × Entry).2.updated_at ≤ now

/-- The clock reading an operation stamps entries and log records with. -/
def opNow : Op → Nat
  | .list now _ => now
  | .create _ _ now _ _ => now
  | .read _ now _ => now
  | .update _ _ now _ _ => now
  | .delete _ now _ _ => now

theorem beginsWith_concat (a b c d : String) (h : c.data = b.data ++ d.data) :
    beginsWith (a ++ b) (a ++ c) :=
  ⟨d.data, by simp [h]⟩

theorem occursIn_append_left (s t u : String) (h : occursIn s u) :
    occursIn s (t ++ u) := by
  obtain ⟨l, r, hl⟩ := h
  exact ⟨t.data ++ l, r, by simp [hl]⟩

theorem occursIn_joinKeys : ∀ (ks : List String) (k : String), k ∈ ks →
    occursIn k (joinKeys ks) := by
  intro ks
  induction ks with
  | nil => intro k h; cases h
  | cons k0 rest ih =>
      intro k h
      cases rest with
      | nil =>
          rcases List.mem_cons.mp h with h1 | h1
          · subst h1; exact ⟨[], [], by simp [joinKeys]⟩
          · cases h1
      | cons k2 rest2 =>
          rcases List.mem_cons.mp h with h1 | h1
          · subst h1
            refine ⟨[], ", ".data ++ (joinKeys (k2 :: rest2)).data, ?_⟩
            simp [joinKeys]
          · obtain ⟨l, r, hl⟩ := ih k h1
            refine ⟨(k0.data ++ ", ".data) ++ l, r, ?_⟩
            simp [joinKeys, hl]

theorem saved_msgs_ne (key : String) :
    ("Saved in memory, file write failed." : String)
      ≠ "Saved: \x27" ++ key ++ "\x27" := by
  intro h
  have hd := congrArg String.data h
  simp only [String.data_append, List.append_assoc] at hd
  have h5 := congrArg (fun l : List Char => l[5]?) hd
  simp at h5

theorem updated_msgs_ne (key : String) :
    ("Updated in memory, file write failed." : String)
      ≠ "Updated: \x27" ++ key ++ "\x27" := by
  intro h
  have hd := congrArg String.data h
  simp only [String.data_append, List.append_assoc] at hd
  have h7 := congrArg (fun l : List Char => l[7]?) hd
  simp at h7

theorem deleted_msgs_ne (key : String) :
    ("Deleted \x27" ++ key ++ "\x27, file write failed." : String)
      ≠ "Deleted \x27" ++ key ++ "\x27" := by
  intro h
  have hlen := congrArg String.length h
  simp only [String.length_append] at hlen
  have h1 : ("\x27, file write failed." : String).length = 21 := by decide
  have h2 : ("\x27" : String).length = 1 := by decide
  omega

/-- Both persistence outcomes of `create_memory` leave the same store: the
fresh entry inserted under the assigned key. -/
theorem create_store_eq (st : St) (c : String) (keyTime now : Nat)
    (saveOk logOk : Bool) :
    (create_memory st c keyTime now saveOk logOk).1.memory_store
      = setEntry st.memory_store
          (assignKey (keys st.memory_store) (generate_auto_key keyTime))
          ⟨c, now, now⟩ := by
  cases saveOk <;> simp [create_memory, create_memory_entry]

/-- Claim C2: for every content string `c`, `create(c)` followed by `read` on
the key it was assigned yields an entry whose `content` equals `c` and whose
`created_at` equals `updated_at` (both are the creation clock reading). -/
theorem C2_create_then_read (st : St) (c : String) (keyTime now now2 : Nat)
    (saveOk logOk logOk2 : Bool) :
    getEntry (create_memory st c keyTime now saveOk logOk).1.memory_store
        (assignKey (keys st.memory_store) (generate_auto_key keyTime))
      = some ⟨c, now, now⟩
    ∧ (read_memory (create_memory st c keyTime now saveOk logOk).1
        (assignKey (keys st.memory_store) (generate_auto_key keyTime))
        now2 logOk2).2
      = entryDetail
          (assignKey (keys st.memory_store) (generate_auto_key keyTime))
          ⟨c, now, now⟩ := by
  have hget : getEntry
      (create_memory st c keyTime now saveOk logOk).1.memory_store
      (assignKey (keys st.memory_store) (generate_auto_key keyTime))
      = some ⟨c, now, now⟩ := by
    rw [create_store_eq]
    exact getEntry_setEntry_self _ _ _
  refine ⟨hget, ?_⟩
  simp [read_memory, hget]

/-- Claim C10: the key assigned by `create` was not present before the
insertion, every pre-existing entry is unchanged, and the store grows by
exactly one entry. -/
theorem C10_create_frame (st : St) (c : String) (keyTime now : Nat)
    (saveOk logOk : Bool) :
    assignKey (keys st.memory_store) (generate_auto_key keyTime)
        ∉ keys st.memory_store
    ∧ (∀ k, k ≠ assignKey (keys st.memory_store) (generate_auto_key keyTime) →
        getEntry (create_memory st c keyTime now saveOk logOk).1.memory_store k
          = getEntry st.memory_store k)
    ∧ (create_memory st c keyTime now saveOk logOk).1.memory_store.length
        = st.memory_store.length + 1 := by
  have hfresh :=
    assignKey_not_mem (keys st.memory_store) (generate_auto_key keyTime)
  refine ⟨hfresh, fun k hk => ?_, ?_⟩
  · rw [create_store_eq]
    exact getEntry_setEntry_ne _ _ _ _ hk
  · rw [create_store_eq, setEntry_not_mem _ hfresh]
    simp

/-- Claim C6: two `create` calls whose generated default keys coincide (same
second) are assigned distinct keys; the second receives the default key with
the first unused two-digit suffix counter, every smaller positive counter
being taken. -/
theorem C6_collision_suffix (st : St) (c1 : String) (keyTime n1 : Nat)
    (s1 l1 : Bool) :
    assignKey (keys st.memory_store) (generate_auto_key keyTime)
        ≠ assignKey
            (keys (create_memory st c1 keyTime n1 s1 l1).1.memory_store)
            (generate_auto_key keyTime)
    ∧ assignKey (keys (create_memory st c1 keyTime n1 s1 l1).1.memory_store)
          (generate_auto_key keyTime)
        ∉ keys (create_memory st c1 keyTime n1 s1 l1).1.memory_store
    ∧ ∃ cnt, 1 ≤ cnt
        ∧ assignKey (keys (create_memory st c1 keyTime n1 s1 l1).1.memory_store)
            (generate_auto_key keyTime)
          = suffixKey (generate_auto_key keyTime) cnt
        ∧ ∀ cnt2, 1 ≤ cnt2 → cnt2 < cnt →
            suffixKey (generate_auto_key keyTime) cnt2
              ∈ keys (create_memory st c1 keyTime n1 s1 l1).1.memory_store := by
  have hk1get : getEntry (create_memory st c1 keyTime n1 s1 l1).1.memory_store
      (assignKey (keys st.memory_store) (generate_auto_key keyTime))
      = some ⟨c1, n1, n1⟩ := by
    rw [create_store_eq]
    exact getEntry_setEntry_self _ _ _
  have hk1mem : assignKey (keys st.memory_store) (generate_auto_key keyTime)
      ∈ keys (create_memory st c1 keyTime n1 s1 l1).1.memory_store :=
    mem_of_getEntry_isSome hk1get
  have hm1keys : keys (create_memory st c1 keyTime n1 s1 l1).1.memory_store
      = keys st.memory_store
          ++ [assignKey (keys st.memory_store) (generate_auto_key keyTime)] := by
    rw [create_store_eq,
        setEntry_not_mem _ (assignKey_not_mem _ _)]
    simp [keys]
  have hbase : generate_auto_key keyTime
      ∈ keys (create_memory st c1 keyTime n1 s1 l1).1.memory_store := by
    by_cases hb : generate_auto_key keyTime ∈ keys st.memory_store
    · rw [hm1keys]
      exact List.mem_append_left _ hb
    · have hid : assignKey (keys st.memory_store) (generate_auto_key keyTime)
          = generate_auto_key keyTime := by
        simp [assignKey, hb]
      rw [← hid]
      exact hk1mem
  obtain ⟨heq, hge⟩ :=
    assignKey_suffixed
      (keys (create_memory st c1 keyTime n1 s1 l1).1.memory_store)
      (generate_auto_key keyTime) hbase
  have hk2fresh :=
    assignKey_not_mem
      (keys (create_memory st c1 keyTime n1 s1 l1).1.memory_store)
      (generate_auto_key keyTime)
  refine ⟨fun h => hk2fresh (h ▸ hk1mem), hk2fresh,
    firstFreeCounter
      (keys (create_memory st c1 keyTime n1 s1 l1).1.memory_store)
      (generate_auto_key keyTime), hge, heq, ?_⟩
  exact assignKey_min _ _

/-- Claim C7: `list()` enumerates exactly the stored keys, ordered by
`created_at` descending; the tie-break for equal creation times is the
deterministic stable order (original store order), as for Python sorted with
`reverse=True`. -/
theorem C7_list_order (m : List (String × Entry)) :
    (sortedKeys m).Perm (keys m)
    ∧ (sortedKeys m).Pairwise (fun a b => createdOf m b ≤ createdOf m a)
    ∧ ∀ a b, createdOf m a = createdOf m b → [a, b].Sublist (keys m) →
        [a, b].Sublist (sortedKeys m) := by
  have htrans : ∀ (a b c : String),
      decide (createdOf m b ≤ createdOf m a) = true →
      decide (createdOf m c ≤ createdOf m b) = true →
      decide (createdOf m c ≤ createdOf m a) = true := by
    intro a b c hab hbc
    simp only [decide_eq_true_eq] at *
    omega
  have htotal : ∀ (a b : String),
      (decide (createdOf m b ≤ createdOf m a)
        || decide (createdOf m a ≤ createdOf m b)) = true := by
    intro a b
    rcases Nat.le_total (createdOf m b) (createdOf m a) with h | h <;> simp [h]
  refine ⟨List.mergeSort_perm _ _, ?_, ?_⟩
  · have hs := List.sorted_mergeSort htrans htotal (keys m)
    exact hs.imp (fun h => by simpa using h)
  · intro a b hab hsub
    exact List.pair_sublist_mergeSort htrans htotal (by simp [hab]) hsub

theorem list_store_eq (st : St) (now : Nat) (logOk : Bool) :
    (list_memory st now logOk).1.memory_store = st.memory_store := by
  unfold list_memory
  split <;> rfl

theorem read_store_eq (st : St) (k : String) (now : Nat) (logOk : Bool) :
    (read_memory st k now logOk).1.memory_store = st.memory_store := by
  unfold read_memory
  cases getEntry st.memory_store k
  · dsimp only
    split <;> rfl
  · rfl

theorem update_store_eq_none (st : St) (k c : String) (now : Nat)
    (ok lk : Bool) (h : getEntry st.memory_store k = none) :
    (update_memory st k c now ok lk).1.memory_store = st.memory_store := by
  unfold update_memory
  rw [h]
  dsimp only
  split <;> rfl

theorem update_store_eq_some (st : St) (k c : String) (now : Nat)
    (ok lk : Bool) (old : Entry) (h : getEntry st.memory_store k = some old) :
    (update_memory st k c now ok lk).1.memory_store
      = setEntry st.memory_store k ⟨c, old.created_at, now⟩ := by
  unfold update_memory
  rw [h]
  cases ok <;> rfl

theorem delete_store_eq_none (st : St) (k : String) (now : Nat)
    (ok lk : Bool) (h : getEntry st.memory_store k = none) :
    (delete_memory st k now ok lk).1.memory_store = st.memory_store := by
  unfold delete_memory
  rw [h]
  dsimp only
  split <;> rfl

theorem delete_store_eq_some (st : St) (k : String) (now : Nat)
    (ok lk : Bool) (old : Entry) (h : getEntry st.memory_store k = some old) :
    (delete_memory st k now ok lk).1.memory_store
      = delKey st.memory_store k := by
  unfold delete_memory
  rw [h]
  cases ok <;> rfl

/-- Claim C8: every entry always satisfies `created_at ≤ updated_at`, the key
inventory stays duplicate-free, no entry is stamped later than the operation
clock, and no operation changes an existing entry's `created_at`.  The clock
hypothesis `TimeLE` says the operation's clock reading is no earlier than any
stored timestamp (a monotone wall clock). -/
theorem C8_created_le_updated (st : St) (op : Op)
    (hinv : StoreInv st.memory_store)
    (hnd : (keys st.memory_store).Nodup)
    (htime : TimeLE st.memory_store (opNow op)) :
    StoreInv (step st op).1.memory_store
    ∧ (keys (step st op).1.memory_store).Nodup
    ∧ TimeLE (step st op).1.memory_store (opNow op)
    ∧ ∀ k e e2, getEntry st.memory_store k = some e →
        getEntry (step st op).1.memory_store k = some e2 →
        e2.created_at = e.created_at := by
  cases op with
  | list now lk =>
      have hs : (step st (Op.list now lk)).1.memory_store = st.memory_store :=
        list_store_eq st now lk
      rw [hs]
      exact ⟨hinv, hnd, htime, fun k e e2 h1 h2 => by
        rw [h1] at h2; cases h2; rfl⟩
  | read k now lk =>
      have hs : (step st (Op.read k now lk)).1.memory_store
          = st.memory_store := read_store_eq st k now lk
      rw [hs]
      exact ⟨hinv, hnd, htime, fun k2 e e2 h1 h2 => by
        rw [h1] at h2; cases h2; rfl⟩
  | create c kt now ok lk =>
      have hfresh :=
        assignKey_not_mem (keys st.memory_store) (generate_auto_key kt)
      have happ : (step st (Op.create c kt now ok lk)).1.memory_store
          = st.memory_store
            ++ [(assignKey (keys st.memory_store) (generate_auto_key kt),
                 ⟨c, now, now⟩)] := by
        show (create_memory st c kt now ok lk).1.memory_store = _
        rw [create_store_eq, setEntry_not_mem _ hfresh]
      refine ⟨?_, ?_, ?_, ?_⟩
      · intro p hp
        rw [happ] at hp
        rcases List.mem_append.mp hp with hp | hp
        · exact hinv p hp
        · simp at hp
          rw [hp]
      · have hkeys : keys (step st (Op.create c kt now ok lk)).1.memory_store
            = keys st.memory_store
              ++ [assignKey (keys st.memory_store) (generate_auto_key kt)] := by
          rw [happ]; simp [keys]
        rw [hkeys]
        exact ((List.perm_append_singleton _ _).nodup_iff).mpr
          (List.nodup_cons.mpr ⟨hfresh, hnd⟩)
      · intro p hp
        rw [happ] at hp
        rcases List.mem_append.mp hp with hp | hp
        · exact htime p hp
        · simp at hp
          rw [hp]
          simp [opNow]
      · intro k2 e e2 h1 h2
        have hkne : k2 ≠ assignKey (keys st.memory_store)
            (generate_auto_key kt) := by
          intro hh
          rw [hh] at h1
          exact absurd (mem_of_getEntry_isSome h1) hfresh
        have hsame : getEntry
            (step st (Op.create c kt now ok lk)).1.memory_store k2
            = getEntry st.memory_store k2 := by
          show getEntry
            (create_memory st c kt now ok lk).1.memory_store k2 = _
          rw [create_store_eq]
          exact getEntry_setEntry_ne _ _ _ _ hkne
        rw [hsame, h1] at h2
        cases h2
        rfl
  | update k c now ok lk =>
      cases hg : getEntry st.memory_store k with
      | none =>
          have hs : (step st (Op.update k c now ok lk)).1.memory_store
              = st.memory_store := update_store_eq_none st k c now ok lk hg
          rw [hs]
          exact ⟨hinv, hnd, htime, fun k2 e e2 h1 h2 => by
            rw [h1] at h2; cases h2; rfl⟩
      | some old =>
          have hmem : (k, old) ∈ st.memory_store := getEntry_mem hg
          have hkmem : k ∈ keys st.memory_store := mem_of_getEntry_isSome hg
          have hs : (step st (Op.update k c now ok lk)).1.memory_store
              = setEntry st.memory_store k ⟨c, old.created_at, now⟩ :=
            update_store_eq_some st k c now ok lk old hg
          refine ⟨?_, ?_, ?_, ?_⟩
          · intro p hp
            rw [hs] at hp
            rcases mem_setEntry hp with hp | hp
            · rw [hp]
              exact le_trans (hinv (k, old) hmem) (htime (k, old) hmem)
            · exact hinv p hp
          · rw [hs]
            have := keys_setEntry_mem st.memory_store k
              ⟨c, old.created_at, now⟩ hkmem
            rw [this]
            exact hnd
          · intro p hp
            rw [hs] at hp
            rcases mem_setEntry hp with hp | hp
            · rw [hp]
              simp [opNow]
            · exact htime p hp
          · intro k2 e e2 h1 h2
            rw [hs] at h2
            by_cases hk2 : k2 = k
            · subst hk2
              rw [hg] at h1
              cases h1
              rw [getEntry_setEntry_self] at h2
              cases h2
              rfl
            · rw [getEntry_setEntry_ne _ _ _ _ hk2, h1] at h2
              cases h2
              rfl
  | delete k now ok lk =>
      cases hg : getEntry st.memory_store k with
      | none =>
          have hs : (step st (Op.delete k now ok lk)).1.memory_store
              = st.memory_store := delete_store_eq_none st k now ok lk hg
          rw [hs]
          exact ⟨hinv, hnd, htime, fun k2 e e2 h1 h2 => by
            rw [h1] at h2; cases h2; rfl⟩
      | some old =>
          have hs : (step st (Op.delete k now ok lk)).1.memory_store
              = delKey st.memory_store k :=
            delete_store_eq_some st k now ok lk old hg
          have hsub : (delKey st.memory_store k).Sublist st.memory_store :=
            delKey_sublist st.memory_store k
          refine ⟨?_, ?_, ?_, ?_⟩
          · intro p hp
            rw [hs] at hp
            exact hinv p (hsub.subset hp)
          · rw [hs]
            exact hnd.sublist (hsub.map Prod.fst)
          · intro p hp
            rw [hs] at hp
            exact htime p (hsub.subset hp)
          · intro k2 e e2 h1 h2
            rw [hs] at h2
            by_cases hk2 : k2 = k
            · subst hk2
              rw [getEntry_delKey_self _ _ hnd] at h2
              cases h2
            · rw [getEntry_delKey_ne _ _ _ hk2, h1] at h2
              cases h2
              rfl

theorem beginsWith_extend (s t u : String) (h : beginsWith s t) :
    beginsWith s (t ++ u) := by
  obtain ⟨r, hr⟩ := h
  exact ⟨r ++ u.data, by simp [hr]⟩

/-- Claim C9: `update` on an absent key leaves the store completely unchanged
(in particular it never creates the entry) and reports not-found. -/
theorem C9_update_absent (st : St) (key c : String) (now : Nat)
    (saveOk logOk : Bool) (habs : getEntry st.memory_store key = none) :
    (update_memory st key c now saveOk logOk).1.memory_store = st.memory_store
    ∧ getEntry (update_memory st key c now saveOk logOk).1.memory_store key
        = none
    ∧ beginsWith ("Key \x27" ++ key ++ "\x27 not found.")
        (update_memory st key c now saveOk logOk).2 := by
  have hs := update_store_eq_none st key c now saveOk logOk habs
  refine ⟨hs, by rw [hs]; exact habs, ?_⟩
  unfold update_memory
  rw [habs]
  dsimp only
  split
  · exact beginsWith_concat ("Key \x27" ++ key) "\x27 not found."
      "\x27 not found. No memory data exists." " No memory data exists."
      (by decide)
  · exact beginsWith_extend _ _ _
      (beginsWith_concat ("Key \x27" ++ key) "\x27 not found."
        "\x27 not found. Available: " " Available: " (by decide))

/-- Claim C5: `read`, `update` and `delete` on an absent key report not-found
and the message carries every currently known key (vacuously the empty
inventory when the store is empty). -/
theorem C5_not_found_inventory (st : St) (key c : String) (now : Nat)
    (saveOk logOk : Bool) (habs : getEntry st.memory_store key = none) :
    (beginsWith ("Key \x27" ++ key ++ "\x27 not found.")
        (read_memory st key now logOk).2
      ∧ ∀ k ∈ keys st.memory_store,
          occursIn k (read_memory st key now logOk).2)
    ∧ (beginsWith ("Key \x27" ++ key ++ "\x27 not found.")
        (update_memory st key c now saveOk logOk).2
      ∧ ∀ k ∈ keys st.memory_store,
          occursIn k (update_memory st key c now saveOk logOk).2)
    ∧ (beginsWith ("Key \x27" ++ key ++ "\x27 not found.")
        (delete_memory st key now saveOk logOk).2
      ∧ ∀ k ∈ keys st.memory_store,
          occursIn k (delete_memory st key now saveOk logOk).2) := by
  refine ⟨?_, ?_, ?_⟩
  · unfold read_memory
    rw [habs]
    dsimp only
    split
    · constructor
      · exact beginsWith_concat ("Key \x27" ++ key) "\x27 not found."
          "\x27 not found. No memory data." " No memory data." (by decide)
      · intro k hk
        rename_i hemp
        rw [List.isEmpty_iff.mp hemp] at hk
        cases hk
    · constructor
      · exact beginsWith_extend _ _ _
          (beginsWith_concat ("Key \x27" ++ key) "\x27 not found."
            "\x27 not found. Available: " " Available: " (by decide))
      · intro k hk
        exact occursIn_append_left _ _ _ (occursIn_joinKeys _ _ hk)
  · unfold update_memory
    rw [habs]
    dsimp only
    split
    · constructor
      · exact beginsWith_concat ("Key \x27" ++ key) "\x27 not found."
          "\x27 not found. No memory data exists." " No memory data exists."
          (by decide)
      · intro k hk
        rename_i hemp
        rw [List.isEmpty_iff.mp hemp] at hk
        cases hk
    · constructor
      · exact beginsWith_extend _ _ _
          (beginsWith_concat ("Key \x27" ++ key) "\x27 not found."
            "\x27 not found. Available: " " Available: " (by decide))
      · intro k hk
        exact occursIn_append_left _ _ _ (occursIn_joinKeys _ _ hk)
  · unfold delete_memory
    rw [habs]
    dsimp only
    split
    · constructor
      · exact beginsWith_concat ("Key \x27" ++ key) "\x27 not found."
          "\x27 not found. No memory data." " No memory data." (by decide)
      · intro k hk
        rename_i hemp
        rw [List.isEmpty_iff.mp hemp] at hk
        cases hk
    · constructor
      · exact beginsWith_extend _ _ _
          (beginsWith_concat ("Key \x27" ++ key) "\x27 not found."
            "\x27 not found. Available: " " Available: " (by decide))
      · intro k hk
        exact occursIn_append_left _ _ _ (occursIn_joinKeys _ _ hk)

/-- Claim C4: when the snapshot write fails, create/update/delete leave the
same store as when it succeeds (no rollback: the inserted/updated entry stays
visible, the deleted entry stays absent) and return a degraded-success
message distinct from the full-success message. -/
theorem C4_availability_over_durability (st : St) (c key : String)
    (keyTime now : Nat) (logOk : Bool) (old : Entry)
    (hold : getEntry st.memory_store key = some old)
    (hnd : (keys st.memory_store).Nodup) :
    ((create_memory st c keyTime now false logOk).1.memory_store
        = (create_memory st c keyTime now true logOk).1.memory_store
      ∧ getEntry (create_memory st c keyTime now false logOk).1.memory_store
          (assignKey (keys st.memory_store) (generate_auto_key keyTime))
          = some ⟨c, now, now⟩
      ∧ (create_memory st c keyTime now false logOk).2
          ≠ (create_memory st c keyTime now true logOk).2)
    ∧ ((update_memory st key c now false logOk).1.memory_store
        = (update_memory st key c now true logOk).1.memory_store
      ∧ getEntry (update_memory st key c now false logOk).1.memory_store key
          = some ⟨c, old.created_at, now⟩
      ∧ (update_memory st key c now false logOk).2
          ≠ (update_memory st key c now true logOk).2)
    ∧ ((delete_memory st key now false logOk).1.memory_store
        = (delete_memory st key now true logOk).1.memory_store
      ∧ getEntry (delete_memory st key now false logOk).1.memory_store key = none
      ∧ (delete_memory st key now false logOk).2
          ≠ (delete_memory st key now true logOk).2) := by
  refine ⟨⟨?_, ?_, ?_⟩, ⟨?_, ?_, ?_⟩, ⟨?_, ?_, ?_⟩⟩
  · rw [create_store_eq, create_store_eq]
  · rw [create_store_eq]
    exact getEntry_setEntry_self _ _ _
  · have m1 : (create_memory st c keyTime now false logOk).2
        = "Saved in memory, file write failed." := by
      simp [create_memory]
    have m2 : (create_memory st c keyTime now true logOk).2
        = "Saved: \x27"
            ++ assignKey (keys st.memory_store) (generate_auto_key keyTime)
            ++ "\x27" := by
      simp [create_memory]
    rw [m1, m2]
    exact saved_msgs_ne _
  · rw [update_store_eq_some st key c now false logOk old hold,
        update_store_eq_some st key c now true logOk old hold]
  · rw [update_store_eq_some st key c now false logOk old hold]
    exact getEntry_setEntry_self _ _ _
  · have m1 : (update_memory st key c now false logOk).2
        = "Updated in memory, file write failed." := by
      simp [update_memory, hold]
    have m2 : (update_memory st key c now true logOk).2
        = "Updated: \x27" ++ key ++ "\x27" := by
      simp [update_memory, hold]
    rw [m1, m2]
    exact updated_msgs_ne key
  · rw [delete_store_eq_some st key now false logOk old hold,
        delete_store_eq_some st key now true logOk old hold]
  · rw [delete_store_eq_some st key now false logOk old hold]
    exact getEntry_delKey_self _ _ hnd
  · have m1 : (delete_memory st key now false logOk).2
        = "Deleted \x27" ++ key ++ "\x27, file write failed." := by
      simp [delete_memory, hold]
    have m2 : (delete_memory st key now true logOk).2
        = "Deleted \x27" ++ key ++ "\x27" := by
      simp [delete_memory, hold]
    rw [m1, m2]
    exact deleted_msgs_ne key

/-- Claim C3: updating an existing key preserves `created_at`, stores the new
content with `updated_at = now` (no earlier than the prior `updated_at` for a
monotone clock), and the audit record carries the prior entry as `before`,
the new entry as `after`, and a `content_changed` flag that is true exactly
when the new content differs. -/
theorem C3_update_preserves_created (st : St) (key c2 : String) (now : Nat)
    (saveOk logOk : Bool) (old : Entry)
    (hold : getEntry st.memory_store key = some old)
    (hclock : old.updated_at ≤ now) :
    getEntry (update_memory st key c2 now saveOk logOk).1.memory_store key
      = some ⟨c2, old.created_at, now⟩
    ∧ old.updated_at ≤ (Entry.mk c2 old.created_at now).updated_at
    ∧ (update_memory st key c2 now saveOk true).1.log
      = st.log ++ [⟨now, "update", some key, some old,
          some ⟨c2, old.created_at, now⟩, true, none,
          [("old_content_length", MetaValue.nat old.content.length),
           ("new_content_length", MetaValue.nat c2.length),
           ("content_changed", MetaValue.bool (old.content != c2))]⟩]
    ∧ ((old.content != c2) = true ↔ c2 ≠ old.content) := by
  refine ⟨?_, hclock, ?_, ?_⟩
  · rw [update_store_eq_some st key c2 now saveOk logOk old hold]
    exact getEntry_setEntry_self _ _ _
  · unfold update_memory
    rw [hold]
    cases saveOk <;> rfl
  · simp [bne_iff_ne]
    exact ne_comm

theorem runOps_log_length : ∀ (ops : List Op) (st : St),
    (runOps st ops).log.length = st.log.length + ops.countP opLogOk := by
  intro ops
  induction ops with
  | nil => intro st; simp [runOps]
  | cons op rest ih =>
      intro st
      rw [runOps, ih, step_log_length, List.countP_cons]
      cases h : opLogOk op
      · simp [h]
      · simp [h]
        omega

/-- Claim C1 (amended): each attempted operation calls the audit log exactly
once, so the record count grows by one per attempt whose log append succeeds
(equal to N when no log append fails, and a failed append is swallowed and
adds nothing); a not-found failure of read, update or delete appends a record
with `success = false` and the textual error `"Key not found"`; a swallowed
persistence failure of create, update or delete is reported as degraded
success while its single audit record — written before the snapshot write —
has `success = true` and no error field. -/
theorem C1_audit_per_attempt (st : St) (ops : List Op) (keyA keyP c : String)
    (keyTime now : Nat) (saveOk : Bool) (old : Entry)
    (habs : getEntry st.memory_store keyA = none)
    (hold : getEntry st.memory_store keyP = some old) :
    ((runOps st ops).log.length = st.log.length + ops.countP opLogOk
      ∧ ((∀ op ∈ ops, opLogOk op = true) →
          (runOps st ops).log.length = st.log.length + ops.length))
    ∧ ((read_memory st keyA now true).1.log
        = st.log ++ [⟨now, "read", some keyA, none, none, false,
            some "Key not found", []⟩]
      ∧ (update_memory st keyA c now saveOk true).1.log
        = st.log ++ [⟨now, "update", some keyA, none, none, false,
            some "Key not found", []⟩]
      ∧ (delete_memory st keyA now saveOk true).1.log
        = st.log ++ [⟨now, "delete", some keyA, none, none, false,
            some "Key not found", []⟩])
    ∧ ((create_memory st c keyTime now false true).2
          = "Saved in memory, file write failed."
      ∧ (create_memory st c keyTime now false true).1.log
        = st.log ++ [⟨now, "create",
            some (assignKey (keys st.memory_store) (generate_auto_key keyTime)),
            none, some ⟨c, now, now⟩, true, none,
            [("content_length", MetaValue.nat c.length),
             ("auto_generated_key", MetaValue.str
               (assignKey (keys st.memory_store)
                 (generate_auto_key keyTime)))]⟩]
      ∧ (update_memory st keyP c now false true).2
          = "Updated in memory, file write failed."
      ∧ (update_memory st keyP c now false true).1.log
        = st.log ++ [⟨now, "update", some keyP, some old,
            some ⟨c, old.created_at, now⟩, true, none,
            [("old_content_length", MetaValue.nat old.content.length),
             ("new_content_length", MetaValue.nat c.length),
             ("content_changed", MetaValue.bool (old.content != c))]⟩]
      ∧ (delete_memory st keyP now false true).2
          = "Deleted \x27" ++ keyP ++ "\x27, file write failed."
      ∧ (delete_memory st keyP now false true).1.log
        = st.log ++ [⟨now, "delete", some keyP, some old, none, true, none,
            [("deleted_content_length",
              MetaValue.nat old.content.length)]⟩]) := by
  refine ⟨⟨runOps_log_length ops st, fun hall => ?_⟩, ⟨?_, ?_, ?_⟩,
    ⟨by simp [create_memory],
     by simp [create_memory, create_memory_entry, log_operation],
     by simp [update_memory, hold],
     ?_, by simp [delete_memory, hold], ?_⟩⟩
  · rw [runOps_log_length ops st, List.countP_eq_length.mpr hall]
  · unfold read_memory
    rw [habs]
    dsimp only
    split <;> rfl
  · unfold update_memory
    rw [habs]
    dsimp only
    split <;> rfl
  · unfold delete_memory
    rw [habs]
    dsimp only
    split <;> rfl
  · unfold update_memory
    rw [hold]
    rfl
  · unfold delete_memory
    rw [hold]
    rfl

/-- Claim C1 counterexample: a `create` on the empty store whose snapshot
write fails is an error condition (it returns the degraded message), yet the
single audit record it appends has `success = true` and no `error` text — so
not every error condition produces a `success = false` record. -/
theorem C1_counterexample :
    (create_memory ⟨[], []⟩ "c" 0 0 false true).2
      = "Saved in memory, file write failed."
    ∧ (create_memory ⟨[], []⟩ "c" 0 0 false true).1.log
      = [⟨0, "create", some "memory_0", none, some ⟨"c", 0, 0⟩, true, none,
          [("content_length", MetaValue.nat 1),
           ("auto_generated_key", MetaValue.str "memory_0")]⟩] := by
  constructor
  · rfl
  · rfl

theorem C1_audit_per_attempt_witness :
    getEntry (St.mk [("k", ⟨"a", 0, 1⟩)] []).memory_store "z" = none
    ∧ getEntry (St.mk [("k", ⟨"a", 0, 1⟩)] []).memory_store "k"
      = some ⟨"a", 0, 1⟩
    ∧ (runOps (St.mk [("k", ⟨"a", 0, 1⟩)] [])
        [Op.read "z" 2 true]).log.length
      = (St.mk [("k", ⟨"a", 0, 1⟩)] []).log.length
        + ([Op.read "z" 2 true].countP opLogOk) :=
  ⟨by decide, by decide,
    (C1_audit_per_attempt (St.mk [("k", ⟨"a", 0, 1⟩)] [])
      [Op.read "z" 2 true] "z" "k" "c" 3 2 true ⟨"a", 0, 1⟩
      (by decide) (by decide)).1.1⟩

theorem C3_update_preserves_created_witness :
    getEntry (St.mk [("k", ⟨"a", 0, 1⟩)] []).memory_store "k"
      = some ⟨"a", 0, 1⟩
    ∧ (Entry.mk "a" 0 1).updated_at ≤ 2
    ∧ getEntry
        (update_memory (St.mk [("k", ⟨"a", 0, 1⟩)] [])
          "k" "b" 2 true true).1.memory_store
        "k" = some ⟨"b", 0, 2⟩ :=
  ⟨by decide, by decide,
    (C3_update_preserves_created (St.mk [("k", ⟨"a", 0, 1⟩)] []) "k" "b" 2
      true true ⟨"a", 0, 1⟩ (by decide) (by decide)).1⟩

theorem C4_availability_over_durability_witness :
    getEntry (St.mk [("k", ⟨"a", 0, 1⟩)] []).memory_store "k"
      = some ⟨"a", 0, 1⟩
    ∧ (keys (St.mk [("k", ⟨"a", 0, 1⟩)] []).memory_store).Nodup
    ∧ (create_memory (St.mk [("k", ⟨"a", 0, 1⟩)] [])
          "c" 5 6 false true).1.memory_store
      = (create_memory (St.mk [("k", ⟨"a", 0, 1⟩)] [])
          "c" 5 6 true true).1.memory_store :=
  ⟨by decide, by decide,
    (C4_availability_over_durability (St.mk [("k", ⟨"a", 0, 1⟩)] []) "c" "k"
      5 6 true ⟨"a", 0, 1⟩ (by decide) (by decide)).1.1⟩

theorem C5_not_found_inventory_witness :
    getEntry (St.mk [("k", ⟨"a", 0, 1⟩)] []).memory_store "z" = none
    ∧ beginsWith ("Key \x27" ++ "z" ++ "\x27 not found.")
        (read_memory (St.mk [("k", ⟨"a", 0, 1⟩)] []) "z" 2 true).2 :=
  ⟨by decide,
    (C5_not_found_inventory (St.mk [("k", ⟨"a", 0, 1⟩)] []) "z" "c" 2 true
      true (by decide)).1.1⟩

theorem C6_collision_suffix_witness :
    assignKey (keys (St.mk [] []).memory_store) (generate_auto_key 7)
      ≠ assignKey
          (keys (create_memory (St.mk [] []) "c" 7 7 true true).1.memory_store)
          (generate_auto_key 7) :=
  (C6_collision_suffix (St.mk [] []) "c" 7 7 true true).1

theorem C7_list_order_witness :
    (sortedKeys [("k", (⟨"a", 0, 1⟩ : Entry))]).Perm
      (keys [("k", (⟨"a", 0, 1⟩ : Entry))]) :=
  (C7_list_order [("k", (⟨"a", 0, 1⟩ : Entry))]).1

theorem C8_created_le_updated_witness :
    StoreInv (St.mk [("k", ⟨"a", 0, 1⟩)] []).memory_store
    ∧ (keys (St.mk [("k", ⟨"a", 0, 1⟩)] []).memory_store).Nodup
    ∧ TimeLE (St.mk [("k", ⟨"a", 0, 1⟩)] []).memory_store
        (opNow (Op.update "k" "b" 2 true true))
    ∧ StoreInv
        (step (St.mk [("k", ⟨"a", 0, 1⟩)] [])
          (Op.update "k" "b" 2 true true)).1.memory_store :=
  ⟨by unfold StoreInv; decide, by decide, by unfold TimeLE; decide,
    (C8_created_le_updated (St.mk [("k", ⟨"a", 0, 1⟩)] [])
      (Op.update "k" "b" 2 true true) (by unfold StoreInv; decide) (by decide)
      (by unfold TimeLE; decide)).1⟩

theorem C9_update_absent_witness :
    getEntry (St.mk [("k", ⟨"a", 0, 1⟩)] []).memory_store "z" = none
    ∧ (update_memory (St.mk [("k", ⟨"a", 0, 1⟩)] [])
          "z" "b" 2 true true).1.memory_store
      = (St.mk [("k", ⟨"a", 0, 1⟩)] []).memory_store :=
  ⟨by decide,
    (C9_update_absent (St.mk [("k", ⟨"a", 0, 1⟩)] []) "z" "b" 2 true true
      (by decide)).1⟩

theorem C10_create_frame_witness :
    assignKey (keys (St.mk [] []).memory_store) (generate_auto_key 3)
      ∉ keys (St.mk [] []).memory_store :=
  (C10_create_frame (St.mk [] []) "c" 3 4 true true).1
